import Mathlib

set_option synthInstance.maxSize 512

/-!
Shallow embedding of `data_cleaning_module.py`: two outlier-removing
estimators (`OutlierStdRemove`, `OutlierIQRRemove`) and a model-comparison
harness (`ModelComparer`).  Tables are ordered lists of rows; each row
carries a stable integer identifier (the pandas index) and a cell map from
column names to numeric values.  A missing numeric value (pandas `NaN`) is
modelled as `none`; every comparison against `NaN` is false, exactly as in
pandas.  Exact rationals stand in for the numeric values; the sample
standard deviation, which involves a square root, lives in `ℝ`.
-/

deriving instance DecidableEq for Except

/-- A cell value: `some q` is a number, `none` is pandas `NaN`. -/
abbrev Val := Option ℚ

/-- Pandas comparison `a <= b`: any comparison involving `NaN` is false. -/
def vle : Val → Val → Bool
  | some a, some b => decide (a ≤ b)
  | _, _ => false

/-- `NaN`-propagating subtraction on values. -/
def vsub : Val → Val → Val
  | some a, some b => some (a - b)
  | _, _ => none

/-- `NaN`-propagating addition on values. -/
def vadd : Val → Val → Val
  | some a, some b => some (a + b)
  | _, _ => none

/-- `NaN`-propagating multiplication of a value by a scalar. -/
def vscale (v : Val) (q : ℚ) : Val :=
  v.map (fun a => a * q)

/-- A row: a stable row identifier (the pandas index label) together with
the cells, an association list from column name to value. -/
abbrev Row := Nat × List (String × Val)

/-- A table: an ordered list of rows, as a pandas `DataFrame`. -/
abbrev Table := List Row

/-- Read the cell of row `r` in column `c`; an absent column reads as
`NaN` (no claim exercises the missing-column error of column selection). -/
def getCell (r : Row) (c : String) : Val :=
  (r.2.lookup c).getD none

/-- The column `c` of table `X`, in row order (a pandas `Series`). -/
def colValues (X : Table) (c : String) : List Val :=
  X.map (fun r => getCell r c)

/-- Drop the `NaN` entries of a series, as pandas `skipna` reductions do. -/
def dropna (l : List Val) : List ℚ :=
  l.filterMap id

/-- The index of a table: its list of row identifiers. -/
def tableIndex (X : Table) : List Nat :=
  X.map (fun r => r.1)

/-- Per-column bounds as stored in `bounds_`: a dict from column name to
the pair `(lower, upper)`. -/
abbrev Bounds := List (String × (Val × Val))

/-- The message of the Python `KeyError` raised by `self.bounds_[col]`. -/
def keyErrorMsg (c : String) : String :=
  "KeyError: " ++ c

/-- Does row `r` survive the bound check of column `c`?  Mirrors
`(X[col] >= lower) & (X[col] <= upper)` for the stored pair; a column
absent from the dict never arises on the success path. -/
def keepB (b : Bounds) (c : String) (r : Row) : Bool :=
  match b.lookup c with
  | some (lo, hi) => vle lo (getCell r c) && vle (getCell r c) hi
  | none => false

/-- The loop of `transform` (lines 36–43 / 77–84): successively narrow the
row set one column at a time; looking up a column absent from `bounds_`
raises `KeyError`. -/
def transformLoop (b : Bounds) : List String → Table → Except String Table
  | [], X => Except.ok X
  | c :: cs, X =>
    match b.lookup c with
    | none => Except.error (keyErrorMsg c)
    | some (lo, hi) =>
        transformLoop b cs
          (X.filter (fun r => vle lo (getCell r c) && vle (getCell r c) hi))

/-- Pandas `Series.mean()` with `skipna` already applied: `NaN` on an
empty series, otherwise the arithmetic mean. -/
def seriesMean (l : List ℚ) : Option ℚ :=
  if l.length = 0 then none else some (l.sum / (l.length : ℚ))

/-- Pandas `Series.quantile(q)` with linear interpolation between order
statistics (`skipna` already applied): `NaN` on an empty series, otherwise
`v i + frac * (v (i+1) - v i)` at position `q * (n - 1)` of the sorted
values. -/
def quantile (l : List ℚ) (q : ℚ) : Val :=
  if l.length = 0 then none
  else
    let s := l.insertionSort (· ≤ ·)
    let pos : ℚ := q * ((l.length : ℚ) - 1)
    let i : Nat := pos.floor.toNat
    let frac : ℚ := pos - (i : ℚ)
    let lo := s.getD i 0
    let hi := s.getD (min (i + 1) (l.length - 1)) 0
    some (lo + frac * (hi - lo))

/-- The IQR-based outlier remover, lines 45–84 of the source. -/
structure OutlierIQRRemove where
  columns : List String
  factor : ℚ
  bounds_ : Bounds
deriving DecidableEq

/-- `OutlierIQRRemove.__init__` with an explicit factor. -/
def OutlierIQRRemove.init (columns : List String) (factor : ℚ) : OutlierIQRRemove :=
  ⟨columns, factor, []⟩

/-- `OutlierIQRRemove.__init__` with the default `factor=1.5`. -/
def OutlierIQRRemove.initDefault (columns : List String) : OutlierIQRRemove :=
  OutlierIQRRemove.init columns (3 / 2)

/-- The pair of bounds the IQR variant computes for one column (the body
of the comprehension on lines 66–74): `Q1`, `Q3`, `IQR = Q3 - Q1`, bounds
`Q1 - IQR * factor` and `Q3 + IQR * factor`. -/
def iqrColBounds (f : ℚ) (X : Table) (c : String) : Val × Val :=
  let vals := dropna (colValues X c)
  let q1 := quantile vals (1 / 4)
  let q3 := quantile vals (3 / 4)
  let iqr := vsub q3 q1
  (vsub q1 (vscale iqr f), vadd q3 (vscale iqr f))

/-- `OutlierIQRRemove.fit` (lines 62–75). -/
def OutlierIQRRemove.fit (est : OutlierIQRRemove) (X : Table) : OutlierIQRRemove :=
  ⟨est.columns, est.factor,
    est.columns.map (fun c => (c, iqrColBounds est.factor X c))⟩

/-- `OutlierIQRRemove.transform` (lines 77–84). -/
def OutlierIQRRemove.transform (est : OutlierIQRRemove) (X : Table) : Except String Table :=
  transformLoop est.bounds_ est.columns X

/-!
The standard-deviation variant.  Its `bounds_` involve the sample standard
deviation, a square root, so they live in `Option ℝ` (`none` is `NaN`);
the table values stay rational and are cast for the comparisons.
-/

/-- A real-valued bound as stored by the std variant: `none` is `NaN`. -/
abbrev ValR := Option ℝ

/-- Cast a table value to a real bound value. -/
def valR (v : Val) : ValR :=
  v.map (fun q => (q : ℝ))

/-- Pandas comparison `a <= b` on real values: false whenever `NaN` is
involved. -/
noncomputable def vleR : ValR → ValR → Bool
  | some a, some b => decide (a ≤ b)
  | _, _ => false

/-- `NaN`-propagating subtraction on real bound values. -/
def rsub : ValR → ValR → ValR
  | some a, some b => some (a - b)
  | _, _ => none

/-- `NaN`-propagating addition on real bound values. -/
def radd : ValR → ValR → ValR
  | some a, some b => some (a + b)
  | _, _ => none

/-- `NaN`-propagating multiplication of a real bound value by the factor. -/
def rscale (v : ValR) (q : ℚ) : ValR :=
  v.map (fun a => a * (q : ℝ))

/-- Per-column real-valued bounds as stored by the std variant. -/
abbrev BoundsR := List (String × (ValR × ValR))

/-- Does row `r` survive the bound check of column `c` against real
bounds? -/
noncomputable def keepBR (b : BoundsR) (c : String) (r : Row) : Bool :=
  match b.lookup c with
  | some (lo, hi) => vleR lo (valR (getCell r c)) && vleR (valR (getCell r c)) hi
  | none => false

/-- The loop of the std variant's `transform` (lines 36–43), over the
real-valued `bounds_`. -/
noncomputable def transformLoopR (b : BoundsR) : List String → Table → Except String Table
  | [], X => Except.ok X
  | c :: cs, X =>
    match b.lookup c with
    | none => Except.error (keyErrorMsg c)
    | some (lo, hi) =>
        transformLoopR b cs
          (X.filter (fun r =>
            vleR lo (valR (getCell r c)) && vleR (valR (getCell r c)) hi))

/-- Pandas `Series.std()` (sample standard deviation, `ddof=1`, `skipna`
already applied): `NaN` when fewer than two values remain, otherwise
`sqrt (Σ (x - mean)² / (n - 1))`. -/
noncomputable def seriesStd (l : List ℚ) : Option ℝ :=
  if l.length < 2 then none
  else
    let m : ℝ := ((l.sum : ℚ) : ℝ) / (l.length : ℝ)
    some (Real.sqrt ((l.map (fun x => (((x : ℚ) : ℝ) - m) ^ 2)).sum
      / ((l.length : ℝ) - 1)))

/-- The standard-deviation-based outlier remover, lines 5–43 of the
source. -/
structure OutlierStdRemove where
  columns : List String
  factor : ℚ
  bounds_ : BoundsR

/-- `OutlierStdRemove.__init__` with an explicit factor. -/
def OutlierStdRemove.init (columns : List String) (factor : ℚ) : OutlierStdRemove :=
  ⟨columns, factor, []⟩

/-- `OutlierStdRemove.__init__` with the default `factor=3.0`. -/
def OutlierStdRemove.initDefault (columns : List String) : OutlierStdRemove :=
  OutlierStdRemove.init columns 3

/-- The pair of bounds the std variant computes for one column (the body
of the comprehension on lines 26–33): mean and sample standard deviation,
bounds `mean - std * factor` and `mean + std * factor`. -/
noncomputable def stdColBounds (f : ℚ) (X : Table) (c : String) : ValR × ValR :=
  let vals := dropna (colValues X c)
  let m : ValR := Option.map (fun q : ℚ => (q : ℝ)) (seriesMean vals)
  let s := seriesStd vals
  (rsub m (rscale s f), radd m (rscale s f))

/-- `OutlierStdRemove.fit` (lines 22–34). -/
noncomputable def OutlierStdRemove.fit (est : OutlierStdRemove) (X : Table) : OutlierStdRemove :=
  ⟨est.columns, est.factor,
    est.columns.map (fun c => (c, stdColBounds est.factor X c))⟩

/-- `OutlierStdRemove.transform` (lines 36–43). -/
noncomputable def OutlierStdRemove.transform (est : OutlierStdRemove) (X : Table) :
    Except String Table :=
  transformLoopR est.bounds_ est.columns X

/-!
A minimal reference store, to state the frame property of `fit` and
`transform`: pandas `DataFrame`s live behind references, `X.copy()` and
boolean-mask selection allocate fresh frames, and the input frame is never
written.
-/

/-- A store of tables behind integer references; `next` is the first
unused reference. -/
structure PdStore where
  tables : List (Nat × Table)
  next : Nat
deriving DecidableEq

/-- Read the table behind a reference (an unbound reference reads as the
empty table; the claims only read bound references). -/
def PdStore.read (s : PdStore) (r : Nat) : Table :=
  (s.tables.lookup r).getD []

/-- Allocate a fresh reference holding table `T`. -/
def PdStore.alloc (s : PdStore) (T : Table) : PdStore × Nat :=
  (⟨(s.next, T) :: s.tables, s.next + 1⟩, s.next)

/-- `OutlierIQRRemove.fit` against the store: it reads the argument frame
and updates only the estimator's own state, never the store. -/
def OutlierIQRRemove.fitRef (est : OutlierIQRRemove) (s : PdStore) (r : Nat) :
    OutlierIQRRemove × PdStore :=
  (est.fit (s.read r), s)

/-- `OutlierStdRemove.fit` against the store. -/
noncomputable def OutlierStdRemove.fitRef (est : OutlierStdRemove) (s : PdStore) (r : Nat) :
    OutlierStdRemove × PdStore :=
  (est.fit (s.read r), s)

/-- `OutlierIQRRemove.transform` against the store: `X_transformed =
X.copy()` allocates a fresh frame, the filtering allocates the result
frame, and the input frame is untouched. -/
def OutlierIQRRemove.transformRef (est : OutlierIQRRemove) (s : PdStore) (r : Nat) :
    Except String (PdStore × Nat) :=
  let copy := s.alloc (s.read r)
  match est.transform (copy.1.read copy.2) with
  | Except.error e => Except.error e
  | Except.ok T => Except.ok (copy.1.alloc T)

/-- `OutlierStdRemove.transform` against the store. -/
noncomputable def OutlierStdRemove.transformRef (est : OutlierStdRemove) (s : PdStore) (r : Nat) :
    Except String (PdStore × Nat) :=
  let copy := s.alloc (s.read r)
  match est.transform (copy.1.read copy.2) with
  | Except.error e => Except.error e
  | Except.ok T => Except.ok (copy.1.alloc T)

/-!
The comparison harness (`ModelComparer`, lines 86–138).  The split routine
and the model are external collaborators, consumed through the narrow
interfaces of §6 of the design.
-/

/-- Labels: a sequence of target values aligned with table rows via the
row identifier. -/
abbrev Labels := List (Nat × ℚ)

/-- Modelled from the spec: pandas `y.loc[idx]` re-alignment of a label
sequence to a list of row identifiers (the label store itself is external
to the module). -/
def Labels.loc (y : Labels) (ids : List Nat) : Labels :=
  ids.filterMap (fun i => (y.lookup i).map (fun v => (i, v)))

/-- Modelled from the spec: the external model object.  `clone` gives a
fresh unfit copy, so fitting a clone on a training set and scoring it on a
test set is a pure function of the four data arguments. -/
def MLModel := Table → Labels → Table → Labels → ℚ

/-- Modelled from the spec: the external split routine
`split(X, y, test_fraction, seed)`, deterministic given the seed. -/
def SplitFn := Table → Labels → ℚ → Nat → Table × Table × Labels × Labels

/-- Modelled from the spec: a preprocessor consumed by the harness — any
object with `fit(X)` (returning its fitted state, `clone` having reset any
previous state) and a total `transform(X)` returning a row subset of `X`.
Both outlier removers instantiate it. -/
structure Preproc (σ : Type) where
  pfit : Table → σ
  ptransform : σ → Table → Table

/-- One row of the result table of `compare`: branch label, model score,
and the train/test row counts actually used. -/
structure ResultRow where
  dataset : String
  modelScore : ℚ
  trainSamples : Nat
  testSamples : Nat
deriving DecidableEq

/-- The branch label of the raw branch. -/
def labelRaw : String := "Raw"

/-- The branch label of the preprocessed branch. -/
def labelProcessed : String := "Processed"

/-- `ModelComparer.__init__`: a model and an optional preprocessor. -/
structure ModelComparer (σ : Type) where
  model : MLModel
  preprocessor : Option (Preproc σ)

/-- The preprocessor state fitted inside `compare` (lines 115–117):
`processor = clone(self.preprocessor); processor.fit(X_train)` — fit uses
only the training partition of the split. -/
def ModelComparer.fittedState {σ : Type} (p : Preproc σ) (split : SplitFn)
    (X : Table) (y : Labels) (ts : ℚ) (rs : Nat) : σ :=
  p.pfit (split X y ts rs).1

/-- `X_train_processed` of `compare` (line 120). -/
def ModelComparer.XtrainP {σ : Type} (p : Preproc σ) (split : SplitFn)
    (X : Table) (y : Labels) (ts : ℚ) (rs : Nat) : Table :=
  p.ptransform (ModelComparer.fittedState p split X y ts rs) (split X y ts rs).1

/-- `X_test_processed` of `compare` (line 121). -/
def ModelComparer.XtestP {σ : Type} (p : Preproc σ) (split : SplitFn)
    (X : Table) (y : Labels) (ts : ℚ) (rs : Nat) : Table :=
  p.ptransform (ModelComparer.fittedState p split X y ts rs) (split X y ts rs).2.1

/-- `y_train_processed = y_train.loc[X_train_processed.index]` (line 124). -/
def ModelComparer.ytrainP {σ : Type} (p : Preproc σ) (split : SplitFn)
    (X : Table) (y : Labels) (ts : ℚ) (rs : Nat) : Labels :=
  Labels.loc (split X y ts rs).2.2.1 (tableIndex (ModelComparer.XtrainP p split X y ts rs))

/-- `y_test_processed = y_test.loc[X_test_processed.index]` (line 125). -/
def ModelComparer.ytestP {σ : Type} (p : Preproc σ) (split : SplitFn)
    (X : Table) (y : Labels) (ts : ℚ) (rs : Nat) : Labels :=
  Labels.loc (split X y ts rs).2.2.2 (tableIndex (ModelComparer.XtestP p split X y ts rs))

/-- `ModelComparer.compare` (lines 97–138): split first, record the raw
branch, then — when a preprocessor is supplied — fit it on the training
partition only, transform both partitions, re-align the labels, and record
the processed branch after the raw one. -/
def ModelComparer.compare {σ : Type} (self : ModelComparer σ) (split : SplitFn)
    (X : Table) (y : Labels) (test_size : ℚ) (random_state : Nat) : List ResultRow :=
  let X_train := (split X y test_size random_state).1
  let X_test := (split X y test_size random_state).2.1
  let y_train := (split X y test_size random_state).2.2.1
  let y_test := (split X y test_size random_state).2.2.2
  let raw_score := self.model X_train y_train X_test y_test
  let rawRow : ResultRow := ⟨labelRaw, raw_score, X_train.length, X_test.length⟩
  match self.preprocessor with
  | none => [rawRow]
  | some p =>
      let score := self.model
        (ModelComparer.XtrainP p split X y test_size random_state)
        (ModelComparer.ytrainP p split X y test_size random_state)
        (ModelComparer.XtestP p split X y test_size random_state)
        (ModelComparer.ytestP p split X y test_size random_state)
      [rawRow,
        ⟨labelProcessed, score,
          (ModelComparer.XtrainP p split X y test_size random_state).length,
          (ModelComparer.XtestP p split X y test_size random_state).length⟩]

/-- The IQR estimator as a harness preprocessor: `fit` refits from the
constructor parameters (as `clone` guarantees), `transform` applies the
fitted bounds; the error branch is unreachable after a fit. -/
def OutlierIQRRemove.asPreproc (est : OutlierIQRRemove) : Preproc OutlierIQRRemove :=
  ⟨fun X => est.fit X,
   fun st X => match st.transform X with
     | Except.ok T => T
     | Except.error _ => X⟩

/-- The std estimator as a harness preprocessor. -/
noncomputable def OutlierStdRemove.asPreproc (est : OutlierStdRemove) : Preproc OutlierStdRemove :=
  ⟨fun X => est.fit X,
   fun st X => match st.transform X with
     | Except.ok T => T
     | Except.error _ => X⟩

/-!
Helper lemmas about the embedding.
-/

theorem lookup_map_self {β : Type} (g : String → β) (cols : List String) :
    ∀ c ∈ cols, (cols.map (fun x => (x, g x))).lookup c = some (g c) := by
  induction cols with
  | nil => intro c hc; cases hc
  | cons d ds ih =>
    intro c hc
    by_cases h : c = d
    · subst h
      simp [List.lookup]
    · rcases List.mem_cons.mp hc with h' | h'
      · exact absurd h' h
      · simpa [List.lookup, beq_eq_false_iff_ne.mpr h] using ih c h'

theorem transformLoop_eq_filter (b : Bounds) (cols : List String) :
    ∀ X : Table, (∀ c ∈ cols, (b.lookup c).isSome = true) →
      transformLoop b cols X =
        Except.ok (X.filter (fun r => cols.all (fun c => keepB b c r))) := by
  induction cols with
  | nil => intro X _; simp [transformLoop]
  | cons c cs ih =>
    intro X h
    obtain ⟨⟨lo, hi⟩, hlk⟩ :=
      Option.isSome_iff_exists.mp (h c (List.mem_cons_self c cs))
    simp only [transformLoop, hlk]
    rw [ih _ (fun d hd => h d (List.mem_cons_of_mem c hd))]
    congr 1
    rw [List.filter_filter]
    refine List.filter_congr ?_
    intro r _
    simp [keepB, hlk, List.all_cons, Bool.and_comm]

theorem transformLoop_ok_lookup (b : Bounds) (cols : List String) :
    ∀ (X T : Table), transformLoop b cols X = Except.ok T →
      ∀ c ∈ cols, (b.lookup c).isSome = true := by
  induction cols with
  | nil => intro X T _ c hc; cases hc
  | cons c cs ih =>
    intro X T hok d hd
    cases hlk : b.lookup c with
    | none => rw [transformLoop, hlk] at hok; cases hok
    | some p =>
      obtain ⟨lo, hi⟩ := p
      rw [transformLoop, hlk] at hok
      rcases List.mem_cons.mp hd with h' | h'
      · subst h'; simp [hlk]
      · exact ih _ T hok d h'

theorem transformLoop_ok_elim (b : Bounds) (cols : List String) (X T : Table)
    (hok : transformLoop b cols X = Except.ok T) :
    T = X.filter (fun r => cols.all (fun c => keepB b c r)) := by
  have h := transformLoop_eq_filter b cols X (transformLoop_ok_lookup b cols X T hok)
  rw [hok] at h
  exact Except.ok.inj h

theorem transformLoopR_eq_filter (b : BoundsR) (cols : List String) :
    ∀ X : Table, (∀ c ∈ cols, (b.lookup c).isSome = true) →
      transformLoopR b cols X =
        Except.ok (X.filter (fun r => cols.all (fun c => keepBR b c r))) := by
  induction cols with
  | nil => intro X _; simp [transformLoopR]
  | cons c cs ih =>
    intro X h
    obtain ⟨⟨lo, hi⟩, hlk⟩ :=
      Option.isSome_iff_exists.mp (h c (List.mem_cons_self c cs))
    simp only [transformLoopR, hlk]
    rw [ih _ (fun d hd => h d (List.mem_cons_of_mem c hd))]
    congr 1
    rw [List.filter_filter]
    refine List.filter_congr ?_
    intro r _
    simp [keepBR, hlk, List.all_cons, Bool.and_comm]

theorem transformLoopR_ok_lookup (b : BoundsR) (cols : List String) :
    ∀ (X T : Table), transformLoopR b cols X = Except.ok T →
      ∀ c ∈ cols, (b.lookup c).isSome = true := by
  induction cols with
  | nil => intro X T _ c hc; cases hc
  | cons c cs ih =>
    intro X T hok d hd
    cases hlk : b.lookup c with
    | none => rw [transformLoopR, hlk] at hok; cases hok
    | some p =>
      obtain ⟨lo, hi⟩ := p
      rw [transformLoopR, hlk] at hok
      rcases List.mem_cons.mp hd with h' | h'
      · subst h'; simp [hlk]
      · exact ih _ T hok d h'

theorem transformLoopR_ok_elim (b : BoundsR) (cols : List String) (X T : Table)
    (hok : transformLoopR b cols X = Except.ok T) :
    T = X.filter (fun r => cols.all (fun c => keepBR b c r)) := by
  have h := transformLoopR_eq_filter b cols X (transformLoopR_ok_lookup b cols X T hok)
  rw [hok] at h
  exact Except.ok.inj h

theorem dropna_length_eq (l : List Val) (h : ∀ v ∈ l, v ≠ none) :
    (dropna l).length = l.length := by
  induction l with
  | nil => rfl
  | cons v vs ih =>
    cases v with
    | none => exact absurd rfl (h none (List.mem_cons_self none vs))
    | some q =>
      simpa [dropna, List.filterMap_cons] using
        ih (fun w hw => h w (List.mem_cons_of_mem _ hw))

theorem colValues_length (X : Table) (c : String) :
    (colValues X c).length = X.length := by
  simp [colValues]

theorem ratCast_listSum (l : List ℚ) :
    ((l.sum : ℚ) : ℝ) = (l.map (fun q : ℚ => (q : ℝ))).sum := by
  induction l with
  | nil => simp
  | cons x xs ih => simp [ih]

theorem loc_length (y : Labels) (ids : List Nat)
    (h : ∀ i ∈ ids, (y.lookup i).isSome = true) :
    (Labels.loc y ids).length = ids.length := by
  induction ids with
  | nil => rfl
  | cons i is ih =>
    obtain ⟨v, hv⟩ := Option.isSome_iff_exists.mp (h i (List.mem_cons_self i is))
    simpa [Labels.loc, List.filterMap_cons, hv] using
      ih (fun j hj => h j (List.mem_cons_of_mem _ hj))

theorem loc_mem (y : Labels) (ids : List Nat) (i : Nat) (hi : i ∈ ids) (v : ℚ)
    (hv : y.lookup i = some v) : (i, v) ∈ Labels.loc y ids := by
  rw [Labels.loc, List.mem_filterMap]
  exact ⟨i, hi, by simp [hv]⟩

theorem tableIndex_length (X : Table) : (tableIndex X).length = X.length := by
  simp [tableIndex]

theorem stdColBounds_of_short (f : ℚ) (X : Table) (c : String) (h : X.length < 2) :
    stdColBounds f X c = (none, none) := by
  have hlt : (dropna (colValues X c)).length < 2 :=
    lt_of_le_of_lt (le_trans (List.length_filterMap_le _ _)
      (le_of_eq (colValues_length X c))) h
  rw [stdColBounds]
  simp only [seriesStd, if_pos hlt]
  cases seriesMean (dropna (colValues X c)) with
  | none => rfl
  | some m => rfl

/-!
Concrete fixtures for the witnesses and examples.
-/

/-- The single monitored column of the fixtures. -/
def colA : String := "a"

/-- The example values of the spec's IQR example. -/
def exVals : List ℚ := [1, 2, 3, 4, 5, 6, 7, 8, 9, 100]

/-- A ten-row table carrying the example values in column `"a"`. -/
def exTable : Table :=
  [(0, [(colA, some 1)]), (1, [(colA, some 2)]), (2, [(colA, some 3)]),
   (3, [(colA, some 4)]), (4, [(colA, some 5)]), (5, [(colA, some 6)]),
   (6, [(colA, some 7)]), (7, [(colA, some 8)]), (8, [(colA, some 9)]),
   (9, [(colA, some 100)])]

/-- The first nine rows of `exTable` — all but the outlier `100`. -/
def exTable9 : Table :=
  [(0, [(colA, some 1)]), (1, [(colA, some 2)]), (2, [(colA, some 3)]),
   (3, [(colA, some 4)]), (4, [(colA, some 5)]), (5, [(colA, some 6)]),
   (6, [(colA, some 7)]), (7, [(colA, some 8)]), (8, [(colA, some 9)])]

/-- A fitted-looking IQR estimator used by witnesses. -/
def cEstIQR : OutlierIQRRemove := ⟨[colA], 3 / 2, [(colA, (some 0, some 10))]⟩

/-- A std estimator carrying a `NaN` bound, used by witnesses. -/
def cEstStd : OutlierStdRemove := ⟨[colA], 3, [(colA, (none, none))]⟩

/-- A two-row table, one row inside and one outside `cEstIQR`'s bounds. -/
def cX : Table := [(0, [(colA, some 5)]), (1, [(colA, some 99)])]

/-- The surviving row of `cX` under `cEstIQR`. -/
def cT : Table := [(0, [(colA, some 5)])]

/-!
The claims.
-/

/-- Claim C1: for every fitted estimator (std or IQR variant) and every
input table, `transform` returns exactly the rows in which, for every
monitored column, the row's value lies within that column's stored
`[lower, upper]` inclusive (`keepB`/`keepBR`); every excluded row violates
the bound of at least one monitored column; and the result is independent
of the order in which the columns are evaluated. -/
theorem claim_C1 :
    (∀ (est : OutlierIQRRemove) (X T : Table), est.transform X = Except.ok T →
      (∀ r : Row, r ∈ T ↔ r ∈ X ∧ ∀ c ∈ est.columns, keepB est.bounds_ c r = true) ∧
      (∀ r ∈ X, r ∉ T → ∃ c ∈ est.columns, keepB est.bounds_ c r = false) ∧
      (∀ cols' : List String, cols'.Perm est.columns →
        transformLoop est.bounds_ cols' X = Except.ok T)) ∧
    (∀ (est : OutlierStdRemove) (X T : Table), est.transform X = Except.ok T →
      (∀ r : Row, r ∈ T ↔ r ∈ X ∧ ∀ c ∈ est.columns, keepBR est.bounds_ c r = true) ∧
      (∀ r ∈ X, r ∉ T → ∃ c ∈ est.columns, keepBR est.bounds_ c r = false) ∧
      (∀ cols' : List String, cols'.Perm est.columns →
        transformLoopR est.bounds_ cols' X = Except.ok T)) := by
  constructor
  · intro est X T hok
    have hlk := transformLoop_ok_lookup _ _ _ _ hok
    have hT := transformLoop_ok_elim _ _ _ _ hok
    subst hT
    refine ⟨?_, ?_, ?_⟩
    · intro r
      simp [List.mem_filter, List.all_eq_true]
    · intro r hr hnot
      have hall : ¬ est.columns.all (fun c => keepB est.bounds_ c r) = true :=
        fun hall => hnot (List.mem_filter.mpr ⟨hr, hall⟩)
      rw [List.all_eq_true] at hall
      push_neg at hall
      obtain ⟨c, hc, hkc⟩ := hall
      exact ⟨c, hc, by simpa using hkc⟩
    · intro cols' hp
      rw [transformLoop_eq_filter _ _ _ (fun c hc => hlk c (hp.mem_iff.mp hc))]
      congr 1
      refine List.filter_congr ?_
      intro r _
      rw [Bool.eq_iff_iff, List.all_eq_true, List.all_eq_true]
      exact ⟨fun hh c hc => hh c (hp.mem_iff.mpr hc),
             fun hh c hc => hh c (hp.mem_iff.mp hc)⟩
  · intro est X T hok
    have hlk := transformLoopR_ok_lookup _ _ _ _ hok
    have hT := transformLoopR_ok_elim _ _ _ _ hok
    subst hT
    refine ⟨?_, ?_, ?_⟩
    · intro r
      simp [List.mem_filter, List.all_eq_true]
    · intro r hr hnot
      have hall : ¬ est.columns.all (fun c => keepBR est.bounds_ c r) = true :=
        fun hall => hnot (List.mem_filter.mpr ⟨hr, hall⟩)
      rw [List.all_eq_true] at hall
      push_neg at hall
      obtain ⟨c, hc, hkc⟩ := hall
      exact ⟨c, hc, by simpa using hkc⟩
    · intro cols' hp
      rw [transformLoopR_eq_filter _ _ _ (fun c hc => hlk c (hp.mem_iff.mp hc))]
      congr 1
      refine List.filter_congr ?_
      intro r _
      rw [Bool.eq_iff_iff, List.all_eq_true, List.all_eq_true]
      exact ⟨fun hh c hc => hh c (hp.mem_iff.mpr hc),
             fun hh c hc => hh c (hp.mem_iff.mp hc)⟩

/-- Witness for C1 at a concrete estimator, bounds and table. -/
theorem claim_C1_witness :
    transformLoop cEstIQR.bounds_ [colA] cX = Except.ok cT ∧
    transformLoopR cEstStd.bounds_ [colA] cX = Except.ok [] :=
  ⟨(claim_C1.1 cEstIQR cX cT rfl).2.2 [colA] (List.Perm.refl _),
   (claim_C1.2 cEstStd cX [] rfl).2.2 [colA] (List.Perm.refl _)⟩

/-- Claim C5: transform with fixed fitted bounds is idempotent — applying
`transform` to a table it has already produced returns that table
unchanged, for both variants. -/
theorem claim_C5 :
    (∀ (est : OutlierIQRRemove) (X T : Table),
        est.transform X = Except.ok T → est.transform T = Except.ok T) ∧
    (∀ (est : OutlierStdRemove) (X T : Table),
        est.transform X = Except.ok T → est.transform T = Except.ok T) := by
  constructor
  · intro est X T hok
    have hlk := transformLoop_ok_lookup _ _ _ _ hok
    have hT := transformLoop_ok_elim _ _ _ _ hok
    rw [OutlierIQRRemove.transform, transformLoop_eq_filter _ _ _ hlk]
    congr 1
    rw [List.filter_eq_self]
    intro r hr
    rw [hT] at hr
    exact (List.mem_filter.mp hr).2
  · intro est X T hok
    have hlk := transformLoopR_ok_lookup _ _ _ _ hok
    have hT := transformLoopR_ok_elim _ _ _ _ hok
    rw [OutlierStdRemove.transform, transformLoopR_eq_filter _ _ _ hlk]
    congr 1
    rw [List.filter_eq_self]
    intro r hr
    rw [hT] at hr
    exact (List.mem_filter.mp hr).2

/-- Witness for C5: re-filtering the already-filtered concrete table. -/
theorem claim_C5_witness : cEstIQR.transform cT = Except.ok cT :=
  claim_C5.1 cEstIQR cX cT rfl

/-- Counterexample to C8 as stated: an estimator that was never fit but
monitors the empty column list runs `transform` without error — the
filtering loop has no iterations and returns the copied table. -/
theorem claim_C8_counterexample :
    (OutlierIQRRemove.init [] (3 / 2)).transform cX = Except.ok cX := rfl

/-- Claim C8 (amended): for every estimator whose monitored-column list is
nonempty, calling `transform` before any `fit` fails with the `KeyError`
of the first monitored column (the `bounds_` dict is empty), for every
input table and both variants. -/
theorem claim_C8 :
    ∀ (c : String) (cs : List String) (f : ℚ) (X : Table),
      (OutlierIQRRemove.init (c :: cs) f).transform X =
        Except.error (keyErrorMsg c) ∧
      (OutlierStdRemove.init (c :: cs) f).transform X =
        Except.error (keyErrorMsg c) :=
  fun _ _ _ _ => ⟨rfl, rfl⟩

/-- Claim C10: for every fitted estimator, `transform` excludes any row
whose value in a monitored column is `NaN`; a `NaN` bound for a monitored
column makes `transform` exclude every row; and fitting the std variant on
a table with fewer than two rows produces `NaN` bounds, after which
`transform` returns the empty table. -/
theorem claim_C10 :
    (∀ (est : OutlierIQRRemove) (X T : Table) (r : Row) (c : String),
        est.transform X = Except.ok T → c ∈ est.columns →
        getCell r c = none → r ∉ T) ∧
    (∀ (est : OutlierStdRemove) (X T : Table) (r : Row) (c : String),
        est.transform X = Except.ok T → c ∈ est.columns →
        getCell r c = none → r ∉ T) ∧
    (∀ (est : OutlierIQRRemove) (X T : Table) (c : String) (lo hi : Val),
        est.transform X = Except.ok T → c ∈ est.columns →
        est.bounds_.lookup c = some (lo, hi) → lo = none ∨ hi = none →
        T = []) ∧
    (∀ (est : OutlierStdRemove) (X T : Table) (c : String) (lo hi : ValR),
        est.transform X = Except.ok T → c ∈ est.columns →
        est.bounds_.lookup c = some (lo, hi) → lo = none ∨ hi = none →
        T = []) ∧
    (∀ (cols : List String) (f : ℚ) (X : Table), X.length < 2 → ∀ c ∈ cols,
        (((OutlierStdRemove.init cols f).fit X).bounds_).lookup c =
          some (none, none)) ∧
    (∀ (cols : List String) (f : ℚ) (X Y : Table), X.length < 2 → cols ≠ [] →
        ((OutlierStdRemove.init cols f).fit X).transform Y = Except.ok []) := by
  have hstdlk : ∀ (cols : List String) (f : ℚ) (X : Table), X.length < 2 →
      ∀ c ∈ cols, (((OutlierStdRemove.init cols f).fit X).bounds_).lookup c =
        some (none, none) := by
    intro cols f X hX c hc
    simp only [OutlierStdRemove.fit, OutlierStdRemove.init]
    rw [lookup_map_self (fun c => stdColBounds f X c) cols c hc]
    rw [stdColBounds_of_short f X c hX]
  refine ⟨?_, ?_, ?_, ?_, hstdlk, ?_⟩
  · intro est X T r c hok hc hnan hrT
    have hT := transformLoop_ok_elim _ _ _ _ hok
    subst hT
    have hkc := List.all_eq_true.mp (List.mem_filter.mp hrT).2 c hc
    obtain ⟨⟨lo, hi⟩, hlk⟩ :=
      Option.isSome_iff_exists.mp (transformLoop_ok_lookup _ _ _ _ hok c hc)
    rw [keepB, hlk, hnan] at hkc
    cases lo <;> simp [vle] at hkc
  · intro est X T r c hok hc hnan hrT
    have hT := transformLoopR_ok_elim _ _ _ _ hok
    subst hT
    have hkc := List.all_eq_true.mp (List.mem_filter.mp hrT).2 c hc
    obtain ⟨⟨lo, hi⟩, hlk⟩ :=
      Option.isSome_iff_exists.mp (transformLoopR_ok_lookup _ _ _ _ hok c hc)
    rw [keepBR, hlk, hnan] at hkc
    cases lo <;> simp [vleR, valR] at hkc
  · intro est X T c lo hi hok hc hlk hnan
    have hT := transformLoop_ok_elim _ _ _ _ hok
    subst hT
    rw [List.filter_eq_nil_iff]
    intro r _ hall
    have hkc := List.all_eq_true.mp hall c hc
    rw [keepB, hlk] at hkc
    rcases hnan with rfl | rfl
    · cases getCell r c <;> simp [vle] at hkc
    · cases getCell r c <;> cases lo <;> simp [vle] at hkc
  · intro est X T c lo hi hok hc hlk hnan
    have hT := transformLoopR_ok_elim _ _ _ _ hok
    subst hT
    rw [List.filter_eq_nil_iff]
    intro r _ hall
    have hkc := List.all_eq_true.mp hall c hc
    rw [keepBR, hlk] at hkc
    rcases hnan with rfl | rfl
    · cases getCell r c <;> simp [vleR, valR] at hkc
    · cases getCell r c <;> cases lo <;> simp [vleR, valR] at hkc
  · intro cols f X Y hX hne
    obtain ⟨c0, cs, rfl⟩ : ∃ c0 cs, cols = c0 :: cs := by
      cases cols with
      | nil => exact absurd rfl hne
      | cons a l => exact ⟨a, l, rfl⟩
    have hlk : ∀ c ∈ c0 :: cs,
        ((((OutlierStdRemove.init (c0 :: cs) f).fit X).bounds_).lookup c).isSome = true := by
      intro c hc
      rw [hstdlk (c0 :: cs) f X hX c hc]
      rfl
    rw [OutlierStdRemove.transform,
      show ((OutlierStdRemove.init (c0 :: cs) f).fit X).columns = c0 :: cs from rfl,
      transformLoopR_eq_filter _ _ _ hlk]
    congr 1
    rw [List.filter_eq_nil_iff]
    intro r _ hall
    have hkc := List.all_eq_true.mp hall c0 (List.mem_cons_self c0 cs)
    rw [keepBR, hstdlk (c0 :: cs) f X hX c0 (List.mem_cons_self c0 cs)] at hkc
    simp [vleR] at hkc

/-- Witness for C10: fitting the std variant on an empty table gives `NaN`
bounds and the subsequent transform empties the example table. -/
theorem claim_C10_witness :
    ((OutlierStdRemove.init [colA] 3).fit []).transform cX = Except.ok [] :=
  claim_C10.2.2.2.2.2 [colA] 3 [] cX (by decide) (by decide)

/-- Claim C3: the IQR variant computes `Q1` and `Q3` by linear
interpolation between order statistics and stores
`[Q1 - factor*IQR, Q3 + factor*IQR]` with `IQR = Q3 - Q1` and default
factor `1.5`; on the values `[1,…,9,100]` with factor `1.5` this gives
`Q1 = 3.25`, `Q3 = 7.75`, bounds `[-3.5, 14.5]`, and `transform` then
excludes exactly the row holding `100`. -/
theorem claim_C3 :
    (∀ cols : List String, (OutlierIQRRemove.initDefault cols).factor = 3 / 2) ∧
    (∀ (cols : List String) (f : ℚ) (X : Table), ∀ c ∈ cols,
        (((OutlierIQRRemove.init cols f).fit X).bounds_).lookup c =
          some (iqrColBounds f X c)) ∧
    dropna (colValues exTable colA) = exVals ∧
    quantile exVals (1 / 4) = some (13 / 4) ∧
    quantile exVals (3 / 4) = some (31 / 4) ∧
    iqrColBounds (3 / 2) exTable colA = (some (-(7 / 2)), some (29 / 2)) ∧
    ((OutlierIQRRemove.initDefault [colA]).fit exTable).transform exTable =
      Except.ok exTable9 := by
  refine ⟨fun cols => rfl, ?_, by decide, by with_unfolding_all decide,
    by with_unfolding_all decide, by with_unfolding_all decide,
    by with_unfolding_all decide⟩
  intro cols f X c hc
  simp only [OutlierIQRRemove.fit, OutlierIQRRemove.init]
  rw [lookup_map_self (fun c => iqrColBounds f X c) cols c hc]

/-- Witness for C3's general bound formula at the concrete example. -/
theorem claim_C3_witness :
    (((OutlierIQRRemove.init [colA] (3 / 2)).fit exTable).bounds_).lookup colA =
      some (iqrColBounds (3 / 2) exTable colA) :=
  claim_C3.2.1 [colA] (3 / 2) exTable colA (List.mem_cons_self colA [])

/-- Claim C2: on any table whose monitored column holds no `NaN` and has
at least two rows, the std variant's `fit` computes the mean `μ` and the
sample standard deviation `σ` (the nonnegative root of the `n-1`-divided
sum of squared deviations) over the entire input table — no rows excluded
— and stores bounds `μ - factor·σ` and `μ + factor·σ`; the default factor
is `3.0`. -/
theorem claim_C2 (cols : List String) (f : ℚ) (X : Table) (c : String)
    (hc : c ∈ cols) (hnn : ∀ v ∈ colValues X c, v ≠ none) (hn : 2 ≤ X.length) :
    (OutlierStdRemove.initDefault cols).factor = 3 ∧
    ∃ μ σ : ℝ,
      μ * (X.length : ℝ) =
        ((dropna (colValues X c)).map (fun q : ℚ => (q : ℝ))).sum ∧
      0 ≤ σ ∧
      σ ^ 2 * ((X.length : ℝ) - 1) =
        ((dropna (colValues X c)).map (fun x : ℚ => ((x : ℝ) - μ) ^ 2)).sum ∧
      (dropna (colValues X c)).length = X.length ∧
      (((OutlierStdRemove.init cols f).fit X).bounds_).lookup c =
        some (some (μ - (f : ℝ) * σ), some (μ + (f : ℝ) * σ)) := by
  refine ⟨rfl, ?_⟩
  have hlen : (dropna (colValues X c)).length = X.length := by
    rw [dropna_length_eq _ hnn, colValues_length]
  set vals := dropna (colValues X c) with hvals
  have hn2 : 2 ≤ vals.length := by rw [hlen]; exact hn
  have hne0 : (vals.length : ℝ) ≠ 0 := Nat.cast_ne_zero.mpr (by omega)
  have h1lt : (1 : ℝ) < (vals.length : ℝ) := by
    exact_mod_cast (by omega : 1 < vals.length)
  set μ : ℝ := ((vals.sum : ℚ) : ℝ) / (vals.length : ℝ) with hμ
  set S : ℝ := (vals.map (fun x : ℚ => ((x : ℝ) - μ) ^ 2)).sum with hS
  have hSnn : (0 : ℝ) ≤ S := by
    rw [hS]
    refine List.sum_nonneg ?_
    intro x hx
    rcases List.mem_map.mp hx with ⟨q, _, rfl⟩
    positivity
  set σ : ℝ := Real.sqrt (S / ((vals.length : ℝ) - 1)) with hσ
  have hd0 : ((vals.length : ℝ) - 1) ≠ 0 := by
    have : (0 : ℝ) < (vals.length : ℝ) - 1 := by linarith
    exact ne_of_gt this
  refine ⟨μ, σ, ?_, Real.sqrt_nonneg _, ?_, hlen, ?_⟩
  · rw [← hlen, hμ, div_mul_cancel₀ _ hne0, ratCast_listSum]
  · rw [← hlen, hσ, Real.sq_sqrt (div_nonneg hSnn (by linarith)),
      div_mul_cancel₀ _ hd0]
  · simp only [OutlierStdRemove.fit, OutlierStdRemove.init]
    rw [lookup_map_self (fun c => stdColBounds f X c) cols c hc]
    have hm : seriesMean vals = some (vals.sum / (vals.length : ℚ)) := by
      rw [seriesMean, if_neg (by omega)]
    have hs : seriesStd vals = some σ := by
      rw [seriesStd, if_neg (by omega : ¬ vals.length < 2)]
    have hcast : ((vals.sum / (vals.length : ℚ) : ℚ) : ℝ) = μ := by
      rw [hμ]
      push_cast
      ring
    rw [stdColBounds]
    rw [← hvals, hm, hs]
    simp only [Option.map_some', rsub, radd, rscale, hcast,
      Option.some.injEq, Prod.mk.injEq]
    constructor <;> ring

/-- A two-row `NaN`-free table for the C2 witness. -/
def cX2 : Table := [(0, [(colA, some 1)]), (1, [(colA, some 3)])]

/-- Witness for C2 at a concrete two-row table, discharging the
no-`NaN` and row-count hypotheses by computation. -/
theorem claim_C2_witness : (OutlierStdRemove.initDefault [colA]).factor = 3 :=
  (claim_C2 [colA] 3 cX2 colA (by decide) (by decide) (by decide)).1

/-- Labels for the harness fixtures, aligned with `cX`'s row ids. -/
def cY : Labels := [(0, 5), (1, 7)]

/-- A concrete split routine: everything into both partitions. -/
def splitCA : SplitFn := fun X y _ _ => (X, X, y, y)

/-- A concrete split routine with the same training partition as
`splitCA` but a different test partition. -/
def splitCB : SplitFn := fun X y _ _ => (X, [], y, [])

/-- A trivial preprocessor (identity transform) for the witnesses. -/
def pUnit : Preproc Unit := ⟨fun _ => (), fun _ T => T⟩

/-- A constant-score model for the witnesses. -/
def modelC : MLModel := fun _ _ _ _ => 0

/-- A harness instance with no preprocessor. -/
def mcNone : ModelComparer Unit := ⟨modelC, none⟩

/-- Claim C4: the preprocessor state fitted inside `compare` is a pure
function of the training partition alone — two runs with identical
training partitions (regardless of differing test partitions or inputs)
yield the same fitted state, and in particular the same `bounds_` for both
outlier-remover variants. -/
theorem claim_C4 {σ : Type} (p : Preproc σ) (split split' : SplitFn)
    (X X' : Table) (y y' : Labels) (ts ts' : ℚ) (rs rs' : Nat)
    (h : (split X y ts rs).1 = (split' X' y' ts' rs').1) :
    ModelComparer.fittedState p split X y ts rs =
      ModelComparer.fittedState p split' X' y' ts' rs' ∧
    (∀ e : OutlierIQRRemove,
      (ModelComparer.fittedState e.asPreproc split X y ts rs).bounds_ =
        (ModelComparer.fittedState e.asPreproc split' X' y' ts' rs').bounds_) ∧
    (∀ e : OutlierStdRemove,
      (ModelComparer.fittedState e.asPreproc split X y ts rs).bounds_ =
        (ModelComparer.fittedState e.asPreproc split' X' y' ts' rs').bounds_) := by
  refine ⟨?_, fun e => ?_, fun e => ?_⟩ <;>
    rw [ModelComparer.fittedState, ModelComparer.fittedState, h]

/-- Witness for C4: two splits that agree on the training partition but
not on the test partition give identical fitted bounds. -/
theorem claim_C4_witness :
    ModelComparer.fittedState cEstIQR.asPreproc splitCA cX cY (1 / 5) 42 =
      ModelComparer.fittedState cEstIQR.asPreproc splitCB cX cY (1 / 5) 42 :=
  (claim_C4 cEstIQR.asPreproc splitCA splitCB cX cX cY cY (1 / 5) (1 / 5)
    42 42 rfl).1

/-- Claim C6: inside `compare`, after filtering, the re-aligned labels
match the transformed features — equal row counts and a matching label
entry for every surviving row identifier, for the training and the test
partition alike.  The preprocessor is assumed to return row subsets (§6)
and the split to keep labels aligned with features. -/
theorem claim_C6 {σ : Type} (p : Preproc σ) (split : SplitFn) (X : Table)
    (y : Labels) (ts : ℚ) (rs : Nat)
    (hsub : ∀ (st : σ) (T : Table), tableIndex (p.ptransform st T) ⊆ tableIndex T)
    (htr : ∀ i ∈ tableIndex (split X y ts rs).1,
      (((split X y ts rs).2.2.1).lookup i).isSome = true)
    (hte : ∀ i ∈ tableIndex (split X y ts rs).2.1,
      (((split X y ts rs).2.2.2).lookup i).isSome = true) :
    (ModelComparer.XtrainP p split X y ts rs).length =
      (ModelComparer.ytrainP p split X y ts rs).length ∧
    (∀ i ∈ tableIndex (ModelComparer.XtrainP p split X y ts rs),
      ∃ v, (i, v) ∈ ModelComparer.ytrainP p split X y ts rs) ∧
    (ModelComparer.XtestP p split X y ts rs).length =
      (ModelComparer.ytestP p split X y ts rs).length ∧
    (∀ i ∈ tableIndex (ModelComparer.XtestP p split X y ts rs),
      ∃ v, (i, v) ∈ ModelComparer.ytestP p split X y ts rs) := by
  have htr' : ∀ i ∈ tableIndex (ModelComparer.XtrainP p split X y ts rs),
      (((split X y ts rs).2.2.1).lookup i).isSome = true :=
    fun i hi => htr i (hsub _ _ hi)
  have hte' : ∀ i ∈ tableIndex (ModelComparer.XtestP p split X y ts rs),
      (((split X y ts rs).2.2.2).lookup i).isSome = true :=
    fun i hi => hte i (hsub _ _ hi)
  refine ⟨?_, ?_, ?_, ?_⟩
  · rw [ModelComparer.ytrainP, loc_length _ _ htr', tableIndex_length]
  · intro i hi
    obtain ⟨v, hv⟩ := Option.isSome_iff_exists.mp (htr' i hi)
    exact ⟨v, loc_mem _ _ i hi v hv⟩
  · rw [ModelComparer.ytestP, loc_length _ _ hte', tableIndex_length]
  · intro i hi
    obtain ⟨v, hv⟩ := Option.isSome_iff_exists.mp (hte' i hi)
    exact ⟨v, loc_mem _ _ i hi v hv⟩

/-- Witness for C6 at a concrete identity preprocessor and aligned
labels. -/
theorem claim_C6_witness :
    (ModelComparer.XtrainP pUnit splitCA cX cY (1 / 5) 42).length =
      (ModelComparer.ytrainP pUnit splitCA cX cY (1 / 5) 42).length :=
  (claim_C6 pUnit splitCA cX cY (1 / 5) 42 (fun _ _ => fun _ h => h)
    (by decide) (by decide)).1

/-- Claim C7: `compare` returns one result row per branch, keyed by the
branch label — `"Raw"` always present and first, `"Processed"` present
exactly when a preprocessor was supplied and second — and each row records
the score achieved by the model and the train/test row counts actually
used in that branch. -/
theorem claim_C7 {σ : Type} (mc : ModelComparer σ) (split : SplitFn)
    (X : Table) (y : Labels) (ts : ℚ) (rs : Nat) :
    (mc.preprocessor = none →
      mc.compare split X y ts rs =
        [⟨labelRaw,
          mc.model (split X y ts rs).1 (split X y ts rs).2.2.1
            (split X y ts rs).2.1 (split X y ts rs).2.2.2,
          (split X y ts rs).1.length, (split X y ts rs).2.1.length⟩]) ∧
    (∀ p : Preproc σ, mc.preprocessor = some p →
      mc.compare split X y ts rs =
        [⟨labelRaw,
          mc.model (split X y ts rs).1 (split X y ts rs).2.2.1
            (split X y ts rs).2.1 (split X y ts rs).2.2.2,
          (split X y ts rs).1.length, (split X y ts rs).2.1.length⟩,
         ⟨labelProcessed,
          mc.model (ModelComparer.XtrainP p split X y ts rs)
            (ModelComparer.ytrainP p split X y ts rs)
            (ModelComparer.XtestP p split X y ts rs)
            (ModelComparer.ytestP p split X y ts rs),
          (ModelComparer.XtrainP p split X y ts rs).length,
          (ModelComparer.XtestP p split X y ts rs).length⟩]) ∧
    ((mc.compare split X y ts rs).map (fun row => row.dataset) =
      if (mc.preprocessor).isSome then [labelRaw, labelProcessed]
      else [labelRaw]) := by
  refine ⟨?_, ?_, ?_⟩
  · intro h
    simp only [ModelComparer.compare, h]
  · intro p h
    simp only [ModelComparer.compare, h]
  · cases hp : mc.preprocessor with
    | none => simp [ModelComparer.compare, hp]
    | some p => simp [ModelComparer.compare, hp]

/-- Witness for C7 with the preprocessor absent. -/
theorem claim_C7_witness :
    mcNone.compare splitCA cX cY (1 / 5) 42 =
      [⟨labelRaw, modelC cX cY cX cY, cX.length, cX.length⟩] :=
  (claim_C7 mcNone splitCA cX cY (1 / 5) 42).1 rfl

/-- Claim C9: `fit` and `transform` never mutate their input table.  In
the reference store, `fit` leaves every stored table unchanged and only
returns new estimator state; a successful `transform` leaves every
previously allocated table unchanged, returns a reference that is fresh
(distinct from the input's), and the fresh reference holds exactly the
filtered table. -/
theorem claim_C9 :
    (∀ (est : OutlierIQRRemove) (s : PdStore) (r q : Nat),
        ((est.fitRef s r).2).read q = s.read q ∧
        (est.fitRef s r).1 = est.fit (s.read r)) ∧
    (∀ (est : OutlierStdRemove) (s : PdStore) (r q : Nat),
        ((est.fitRef s r).2).read q = s.read q ∧
        (est.fitRef s r).1 = est.fit (s.read r)) ∧
    (∀ (est : OutlierIQRRemove) (s : PdStore) (r : Nat) (s' : PdStore) (r' : Nat),
        est.transformRef s r = Except.ok (s', r') →
        (∀ q, q < s.next → s'.read q = s.read q) ∧ s.next < r' ∧
        (r < s.next → r' ≠ r) ∧
        ∃ T, est.transform (s.read r) = Except.ok T ∧ s'.read r' = T) ∧
    (∀ (est : OutlierStdRemove) (s : PdStore) (r : Nat) (s' : PdStore) (r' : Nat),
        est.transformRef s r = Except.ok (s', r') →
        (∀ q, q < s.next → s'.read q = s.read q) ∧ s.next < r' ∧
        (r < s.next → r' ≠ r) ∧
        ∃ T, est.transform (s.read r) = Except.ok T ∧ s'.read r' = T) := by
  refine ⟨fun est s r q => ⟨rfl, rfl⟩, fun est s r q => ⟨rfl, rfl⟩, ?_, ?_⟩
  · intro est s r s' r' hok
    simp only [OutlierIQRRemove.transformRef, PdStore.alloc, PdStore.read,
      List.lookup, beq_self_eq_true, Option.getD_some] at hok
    cases ht : est.transform ((s.tables.lookup r).getD []) with
    | error e =>
      rw [ht] at hok
      cases hok
    | ok T =>
      rw [ht] at hok
      obtain ⟨hs', hr'⟩ := Prod.mk.inj (Except.ok.inj hok)
      subst hs'
      subst hr'
      refine ⟨?_, by omega, by omega, T, ht, ?_⟩
      · intro q hq
        have hq1 : (q == s.next + 1) = false := beq_eq_false_iff_ne.mpr (by omega)
        have hq2 : (q == s.next) = false := beq_eq_false_iff_ne.mpr (by omega)
        simp [PdStore.read, List.lookup, hq1, hq2]
      · simp [PdStore.read, List.lookup]
  · intro est s r s' r' hok
    simp only [OutlierStdRemove.transformRef, PdStore.alloc, PdStore.read,
      List.lookup, beq_self_eq_true, Option.getD_some] at hok
    cases ht : est.transform ((s.tables.lookup r).getD []) with
    | error e =>
      rw [ht] at hok
      cases hok
    | ok T =>
      rw [ht] at hok
      obtain ⟨hs', hr'⟩ := Prod.mk.inj (Except.ok.inj hok)
      subst hs'
      subst hr'
      refine ⟨?_, by omega, by omega, T, ht, ?_⟩
      · intro q hq
        have hq1 : (q == s.next + 1) = false := beq_eq_false_iff_ne.mpr (by omega)
        have hq2 : (q == s.next) = false := beq_eq_false_iff_ne.mpr (by omega)
        simp [PdStore.read, List.lookup, hq1, hq2]
      · simp [PdStore.read, List.lookup]

/-- The store before the C9 witness transform: one table behind ref 0. -/
def cStore : PdStore := ⟨[(0, cX)], 1⟩

/-- The store after the C9 witness transform: the copy behind ref 1 and
the filtered result behind ref 2. -/
def cStoreOut : PdStore := ⟨[(2, cT), (1, cX), (0, cX)], 3⟩

/-- Witness for C9: a concrete store run of the IQR transform preserves
the input frame and returns a fresh reference. -/
theorem claim_C9_witness :
    cStoreOut.read 0 = cStore.read 0 ∧ cStore.next < 2 := by
  have h := claim_C9.2.2.1 cEstIQR cStore 0 cStoreOut 2 (by decide)
  exact ⟨h.1 0 (by decide), h.2.1⟩
